import Mathlib

/-!
Shallow embedding of the cykura-protocol tick-bitmap utilities
(`tests/utils.ts`) and of the observation-buffer algorithms of the design
document.  JavaScript `number` values holding integers are modelled as
`Int` (or `Nat` where the source value is non-negative by construction);
`BN` big integers are modelled as `Nat`.
-/

/-- `BN.bitLength` of bn.js: the number of binary digits, `0` for `0`. -/
def bitLength (x : Nat) : Nat := if x = 0 then 0 else Nat.log2 x + 1

/-- `mostSignificantBit` from `tests/utils.ts`: `x.bitLength() - 1`.  The
result is an `Int` because JavaScript subtraction yields `-1` on input 0. -/
def mostSignificantBit (x : Nat) : Int := (bitLength x : Int) - 1

/-- Result type of `nextInitializedBit` (`NextBit` in `tests/utils.ts`). -/
structure NextBit where
  next : Int
  initialized : Bool
  deriving DecidableEq

/-- `nextInitializedBit` from `tests/utils.ts`.  `word` is the 256-bit
bitmap word, `bitPos` the starting bit position.  bn.js `notn(256)` flips
the low 256 bits of its argument, i.e. XORs with `2 ^ 256 - 1`. -/
def nextInitializedBit (word : Nat) (bitPos : Nat) (lte : Bool) : NextBit :=
  if lte then
    let mask : Nat := (1 <<< bitPos) - 1 + (1 <<< bitPos)
    let masked := word &&& mask
    let initialized : Bool := masked != 0
    let next : Int := if initialized then mostSignificantBit masked else 0
    ⟨next, initialized⟩
  else
    let mask : Nat := ((1 <<< bitPos) - 1) ^^^ ((1 <<< 256) - 1)
    let masked := word &&& mask
    let initialized : Bool := masked != 0
    let next : Int := if initialized then mostSignificantBit masked else 255
    ⟨next, initialized⟩

/-- `Position` from `tests/utils.ts`. -/
structure Position where
  wordPos : Int
  bitPos : Nat
  deriving DecidableEq

/-- `tickPosition` from `tests/utils.ts`.  On int32-range inputs,
JavaScript `x >> 8` (arithmetic shift) is floor division by 256, and
`Math.abs(x % 256)` is the absolute value of the truncated remainder
(`Int.tmod`, which keeps the sign of the dividend). -/
def tickPosition (tickBySpacing : Int) : Position :=
  { wordPos := Int.fdiv tickBySpacing 256
    bitPos := (Int.tmod tickBySpacing 256).natAbs }

/-- `generateBitmapWord` from `tests/utils.ts`: reconstructs the bitmap
word from the four stored 64-bit limbs.  The literal shift amounts 64,
126, 192 are the ones appearing in the source. -/
def generateBitmapWord (x : Fin 4 → Nat) : Nat :=
  x 0 + (x 1 <<< 64) + (x 2 <<< 126) + (x 3 <<< 192)

/-- Big-endian byte list of a 32-bit value, as laid out by
`DataView.setUint32 / setInt32` with `littleEndian = false`. -/
def bytes32BE (v : Nat) : List Nat :=
  [v / 2 ^ 24 % 256, v / 2 ^ 16 % 256, v / 2 ^ 8 % 256, v % 256]

/-- JavaScript `ToUint32`, applied by `DataView.setUint32` to its
argument: reduction modulo `2 ^ 32` to a non-negative residue. -/
def toUint32 (n : Int) : Nat := (n % 2 ^ 32).toNat

/-- JavaScript `ToInt32`, applied by `DataView.setInt32` to its argument:
reduction modulo `2 ^ 32` into `[-2 ^ 31, 2 ^ 31)`. -/
def toInt32 (n : Int) : Int :=
  if n % 2 ^ 32 < 2 ^ 31 then n % 2 ^ 32 else n % 2 ^ 32 - 2 ^ 32

/-- `u32ToSeed` from `tests/utils.ts`: the 4-byte big-endian buffer of the
value as an unsigned 32-bit integer. -/
def u32ToSeed (num : Int) : List Nat := bytes32BE (toUint32 num)

/-- `i32ToSeed` from `tests/utils.ts`: `setInt32` stores the 32-bit
two's-complement pattern of `ToInt32(num)`, i.e. the bytes of
`toInt32 num` taken modulo `2 ^ 32`. -/
def i32ToSeed (num : Int) : List Nat :=
  bytes32BE ((toInt32 num % 2 ^ 32).toNat)

/-- `SolanaTickDataProvider.nextInitializedTickWithinOneWord` from
`tests/utils.ts`.  The bitmap store is modelled as a partial map from word
position to the four stored limbs; a `none` result models the account
fetch throwing, in which case the source falls back to the defaults
`nextBit = lte ? 0 : 255`, `initialized = false`. -/
def nextInitializedTickInWord (words : Int → Option (Fin 4 → Nat))
    (tick : Int) (lte : Bool) (tickSpacing : Int) : Int × Bool :=
  let compressed := Int.fdiv tick tickSpacing + (if lte then 0 else 1)
  let pos := tickPosition compressed
  let found : Int × Bool :=
    match words pos.wordPos with
    | some limbs =>
        let word := generateBitmapWord limbs
        let r := nextInitializedBit word pos.bitPos lte
        (r.next, r.initialized)
    | none => (if lte then 0 else 255, false)
  ((pos.wordPos * 256 + found.1) * tickSpacing, found.2)

/-- Definition following the claim's words (C5): the same composition as
`nextInitializedTickInWord`, but with the bit search performed at the
word/bit position of `compressed = floor(tick/spacing)` itself in both
directions, i.e. searching toward and including the starting compressed
tick; to be compared with the source definition. -/
def claimNextInitializedTickInWord (words : Int → Option (Fin 4 → Nat))
    (tick : Int) (lte : Bool) (tickSpacing : Int) : Int × Bool :=
  let compressed := Int.fdiv tick tickSpacing
  let pos := tickPosition compressed
  let found : Int × Bool :=
    match words pos.wordPos with
    | some limbs =>
        let word := generateBitmapWord limbs
        let r := nextInitializedBit word pos.bitPos lte
        (r.next, r.initialized)
    | none => (if lte then 0 else 255, false)
  ((pos.wordPos * 256 + found.1) * tickSpacing, found.2)

/-- Modelled from the spec: the `ObservationRecord` fields (design
document §3); the on-chain account definition itself is not among the
given sources. -/
structure ObservationRecord where
  blockTimestamp : Nat
  tickCumulative : Int
  secondsPerLiquidityCumulative : Nat
  initialized : Bool
  deriving DecidableEq

/-- Modelled from the spec: the observation-buffer portion of the market
state together with the slot store (design document §3, §4.2); the
on-chain state definition itself is not among the given sources. -/
structure ObservationBuffer where
  observationIndex : Nat
  observationCardinality : Nat
  observationCardinalityNext : Nat
  slots : Nat → ObservationRecord

/-- Modelled from the spec: the growth error kind (design document §7). -/
inductive GrowError where
  | growthIndexMismatch
  deriving DecidableEq

/-- Modelled from the spec: one step of the observation-buffer growth
algorithm (design document §4.2); the on-chain handler
`increase_observation_cardinality_next` is not among the given sources.
The new slot index must equal the current `observation_cardinality_next`;
the slot is created with `initialized = false`, sentinel
`block_timestamp = 1` and zeroed cumulatives, and
`observation_cardinality_next` is incremented. -/
def growObservation (s : ObservationBuffer) (i : Nat) :
    Except GrowError ObservationBuffer :=
  if i = s.observationCardinalityNext then
    Except.ok
      { s with
        slots := fun j => if j = i then ⟨1, 0, 0, false⟩ else s.slots j
        observationCardinalityNext := s.observationCardinalityNext + 1 }
  else
    Except.error GrowError.growthIndexMismatch

/-- Modelled from the spec: the fixed time-partition length in seconds
(design document §4.2; scenario B of §8 fixes it at 14). -/
def PARTITION_SECONDS : Nat := 14

/-- Modelled from the spec: `partition(t) = floor(t / PARTITION_SECONDS)`
(design document §4.2 step 2). -/
def partitionOf (t : Nat) : Nat := t / PARTITION_SECONDS

/-- Modelled from the spec: the checkpoint algorithm (design document
§4.2 steps 1–5); the on-chain observation-write code is not among the
given sources.  Elapsed time saturates at 0 (`Nat` subtraction); within
one partition the "last" record is overwritten in place with updated
cumulatives and timestamp, otherwise the index advances to
`(index + 1) mod cardinality` after possibly absorbing one
allocated-but-uninitialized slot at the wraparound point. -/
def checkpoint (s : ObservationBuffer) (now : Nat) (tick : Int)
    (liquidity : Nat) : ObservationBuffer :=
  let last := s.slots s.observationIndex
  let elapsed := now - last.blockTimestamp
  let tickCum := last.tickCumulative + tick * (elapsed : Int)
  let spl := last.secondsPerLiquidityCumulative + elapsed / max liquidity 1
  if partitionOf now = partitionOf last.blockTimestamp then
    { s with
      slots := fun j =>
        if j = s.observationIndex then ⟨now, tickCum, spl, last.initialized⟩
        else s.slots j }
  else
    let card :=
      if (s.observationIndex + 1) % s.observationCardinality = 0 ∧
          s.observationCardinality < s.observationCardinalityNext then
        s.observationCardinality + 1
      else s.observationCardinality
    let nextIndex := (s.observationIndex + 1) % card
    { s with
      observationIndex := nextIndex
      observationCardinality := card
      slots := fun j =>
        if j = nextIndex then ⟨now, tickCum, spl, true⟩ else s.slots j }

/-- A concrete freshly-initialized buffer: one initialized slot, as after
market creation. -/
def demoBuf : ObservationBuffer :=
  { observationIndex := 0
    observationCardinality := 1
    observationCardinalityNext := 1
    slots := fun _ => ⟨0, 0, 0, true⟩ }

/-- The buffer obtained from `demoBuf` by one growth step at index 1. -/
def demoGrown : ObservationBuffer :=
  { observationIndex := 0
    observationCardinality := 1
    observationCardinalityNext := 2
    slots := fun j => if j = 1 then ⟨1, 0, 0, false⟩ else ⟨0, 0, 0, true⟩ }

/-- C1: the claimed compression/decompression round trip fails on the
code at tick `-10` with spacing `10`: `compressed = -1`, `tickPosition`
computes `bitPos = Math.abs(-1 % 256) = 1` instead of the non-negative
residue `255`, and decompression yields `-2550`, not `-10`. -/
theorem c1_tickPosition_roundtrip_fails_at_neg_ten :
    Int.fdiv (-10) 10 = -1
  ∧ tickPosition (-1) = ⟨-1, 1⟩
  ∧ ((tickPosition (-1)).wordPos * 256 + ((tickPosition (-1)).bitPos : Int)) * 10
      = -2550
  ∧ (-1 : Int) % 256 = 255
  ∧ (tickPosition (-1)).bitPos ≠ 255
  ∧ (-2550 : Int) ≠ -10 := by
  refine ⟨by decide, by decide, by decide, by decide, by decide, by decide⟩

/-- C2: `generateBitmapWord` shifts the third limb by 126 bits, not 128:
on limbs `[0, 0, 1, 0]` it returns `2 ^ 126` rather than the claimed
`2 ^ 128`, and the limb contributions overlap (limbs `[0, 2 ^ 62, 0, 0]`
produce the same word). -/
theorem c2_generateBitmapWord_limb2_shifted_126 :
    generateBitmapWord ![0, 0, 1, 0] = 2 ^ 126
  ∧ (2 : Nat) ^ 126 ≠ 2 ^ 128
  ∧ generateBitmapWord ![0, 2 ^ 62, 0, 0] = generateBitmapWord ![0, 0, 1, 0] := by
  refine ⟨by decide, by decide, by decide⟩

/-- C7: for every `n` in `[-2 ^ 31, 2 ^ 31)`, the 4-byte seed produced by
`u32ToSeed` equals the big-endian two's-complement byte sequence produced
by `i32ToSeed`. -/
theorem u32ToSeed_eq_i32ToSeed (n : Int) (h1 : -2 ^ 31 ≤ n) (h2 : n < 2 ^ 31) :
    u32ToSeed n = i32ToSeed n := by
  simp only [u32ToSeed, i32ToSeed, toUint32, toInt32]
  congr 1
  split <;> omega

/-- Witness for C7 at `n = -5`. -/
theorem u32ToSeed_eq_i32ToSeed_witness :
    -2 ^ 31 ≤ (-5 : Int) ∧ (-5 : Int) < 2 ^ 31 ∧ u32ToSeed (-5) = i32ToSeed (-5) :=
  ⟨by norm_num, by norm_num, u32ToSeed_eq_i32ToSeed (-5) (by norm_num) (by norm_num)⟩

theorem mostSignificantBit_zero : mostSignificantBit 0 = -1 := by
  simp [mostSignificantBit, bitLength]

theorem mostSignificantBit_eq_log2 (x : Nat) (hx : x ≠ 0) :
    mostSignificantBit x = (Nat.log2 x : Int) := by
  simp [mostSignificantBit, bitLength, hx]

theorem testBit_log2_self (x : Nat) (hx : x ≠ 0) :
    x.testBit (Nat.log2 x) = true := by
  have h1 : 2 ^ Nat.log2 x ≤ x := Nat.log2_self_le hx
  have h2 : x < 2 ^ (Nat.log2 x + 1) := (Nat.log2_lt hx).mp (Nat.lt_succ_self _)
  have h3 : x / 2 ^ Nat.log2 x = 1 := by
    apply Nat.div_eq_of_lt_le (by simpa using h1)
    rw [Nat.pow_succ] at h2
    omega
  rw [Nat.testBit_to_div_mod, h3]
  rfl

theorem testBit_false_of_log2_lt {x j : Nat} (h : Nat.log2 x < j) :
    x.testBit j = false := by
  rcases Nat.eq_zero_or_pos x with rfl | hpos
  · simp
  · exact Nat.testBit_lt_two_pow ((Nat.log2_lt (Nat.pos_iff_ne_zero.mp hpos)).mp h)

/-- The most significant bit of a nonzero masked value is a common set bit
of `w` and `mask`, and it dominates every common set bit. -/
theorem log2_land_spec (w mask : Nat) (h : w &&& mask ≠ 0) :
    (w.testBit (Nat.log2 (w &&& mask)) = true
      ∧ mask.testBit (Nat.log2 (w &&& mask)) = true)
  ∧ ∀ j, w.testBit j = true → mask.testBit j = true →
      j ≤ Nat.log2 (w &&& mask) := by
  constructor
  · have ht := testBit_log2_self _ h
    rw [Nat.testBit_and, Bool.and_eq_true] at ht
    exact ht
  · intro j hwj hmj
    by_contra hj
    push_neg at hj
    have hf : (w &&& mask).testBit j = false := testBit_false_of_log2_lt hj
    rw [Nat.testBit_and, hwj, hmj] at hf
    simp at hf

/-- Bits of the lte-direction mask `(1 <<< p) - 1 + (1 <<< p)`: exactly
the positions `[0, p]`. -/
theorem lteMask_testBit (p i : Nat) :
    (((1 <<< p) - 1 + (1 <<< p) : Nat)).testBit i = decide (i ≤ p) := by
  have h : ((1 <<< p) - 1 + (1 <<< p) : Nat) = 2 ^ (p + 1) - 1 := by
    have hp : (0 : Nat) < 2 ^ p := pow_pos (by norm_num) p
    rw [Nat.one_shiftLeft, Nat.pow_succ]
    omega
  rw [h, Nat.testBit_two_pow_sub_one]
  simp [Nat.lt_succ_iff]

/-- Bits of the gte-direction mask `((1 <<< p) - 1).notn(256)`: exactly
the positions `[p, 255]`. -/
theorem gteMask_testBit (p i : Nat) (hp : p ≤ 255) :
    ((((1 <<< p) - 1) ^^^ ((1 <<< 256) - 1) : Nat)).testBit i
      = (decide (p ≤ i) && decide (i < 256)) := by
  rw [Nat.one_shiftLeft, Nat.one_shiftLeft, Nat.testBit_xor,
    Nat.testBit_two_pow_sub_one, Nat.testBit_two_pow_sub_one]
  rcases Nat.lt_or_ge i p with h1 | h1
  · have h2 : i < 256 := by omega
    simp [h1, h2, Nat.not_le.mpr h1]
  · rcases Nat.lt_or_ge i 256 with h2 | h2
    · simp [Nat.not_lt.mpr h1, h1, h2]
    · simp [Nat.not_lt.mpr h1, Nat.not_lt.mpr h2, h1]

/-- The lte branch of `nextInitializedBit`, written as one conditional. -/
theorem nextInitializedBit_lte_eq (word bitPos : Nat) :
    nextInitializedBit word bitPos true
      = if word &&& ((1 <<< bitPos) - 1 + (1 <<< bitPos)) = 0 then ⟨0, false⟩
        else ⟨mostSignificantBit
          (word &&& ((1 <<< bitPos) - 1 + (1 <<< bitPos))), true⟩ := by
  by_cases h0 : word &&& ((1 <<< bitPos) - 1 + (1 <<< bitPos)) = 0 <;>
    simp [nextInitializedBit, h0]

/-- The gte branch of `nextInitializedBit`, written as one conditional. -/
theorem nextInitializedBit_gte_eq (word bitPos : Nat) :
    nextInitializedBit word bitPos false
      = if word &&& (((1 <<< bitPos) - 1) ^^^ ((1 <<< 256) - 1)) = 0 then
          ⟨255, false⟩
        else ⟨mostSignificantBit
          (word &&& (((1 <<< bitPos) - 1) ^^^ ((1 <<< 256) - 1))), true⟩ := by
  by_cases h0 : word &&& (((1 <<< bitPos) - 1) ^^^ ((1 <<< 256) - 1)) = 0
  · rw [if_pos h0]
    simp only [nextInitializedBit, h0]
    simp
  · rw [if_neg h0]
    have hb : ((word &&& (((1 <<< bitPos) - 1) ^^^ ((1 <<< 256) - 1))) != 0)
        = true := by simpa using h0
    simp only [nextInitializedBit, hb]
    simp

/-- C4: in the lte direction the search masks bits `[0, p]` of the word;
if some bit in `[0, p]` is set the result is the most significant such bit
with `initialized = true` (in particular `(p, true)` when bit `p` itself
is set); otherwise the result is `(0, false)`. -/
theorem nextInitializedBit_lte_spec (w p : Nat) (hw : w < 2 ^ 256)
    (hp : p ≤ 255) :
    ((∀ i, i ≤ p → w.testBit i = false) →
      nextInitializedBit w p true = ⟨0, false⟩)
  ∧ (∀ i, i ≤ p → w.testBit i = true →
      ∃ n : Nat, nextInitializedBit w p true = ⟨(n : Int), true⟩ ∧
        n ≤ p ∧ w.testBit n = true ∧
        ∀ j, j ≤ p → w.testBit j = true → j ≤ n)
  ∧ (w.testBit p = true → nextInitializedBit w p true = ⟨(p : Int), true⟩) := by
  have hsec : ∀ i, i ≤ p → w.testBit i = true →
      ∃ n : Nat, nextInitializedBit w p true = ⟨(n : Int), true⟩ ∧
        n ≤ p ∧ w.testBit n = true ∧
        ∀ j, j ≤ p → w.testBit j = true → j ≤ n := by
    intro i hip hbi
    have hne : w &&& ((1 <<< p) - 1 + (1 <<< p)) ≠ 0 := by
      intro h0
      have hb : (w &&& ((1 <<< p) - 1 + (1 <<< p))).testBit i = false := by
        rw [h0]; simp
      rw [Nat.testBit_and, lteMask_testBit, hbi] at hb
      simp [hip] at hb
    obtain ⟨⟨hw1, hm1⟩, hmax⟩ := log2_land_spec w _ hne
    rw [lteMask_testBit] at hm1
    refine ⟨Nat.log2 (w &&& ((1 <<< p) - 1 + (1 <<< p))), ?_,
      of_decide_eq_true hm1, hw1, ?_⟩
    · rw [nextInitializedBit_lte_eq, if_neg hne,
        mostSignificantBit_eq_log2 _ hne]
    · intro j hjp hwj
      exact hmax j hwj (by rw [lteMask_testBit]; exact decide_eq_true hjp)
  refine ⟨?_, hsec, ?_⟩
  · intro h
    have h0 : w &&& ((1 <<< p) - 1 + (1 <<< p)) = 0 := by
      apply Nat.eq_of_testBit_eq
      intro i
      rw [Nat.testBit_and, lteMask_testBit, Nat.zero_testBit]
      by_cases hip : i ≤ p
      · simp [h i hip]
      · simp [hip]
    rw [nextInitializedBit_lte_eq, if_pos h0]
  · intro hbp
    obtain ⟨n, hrun, hnp, hwn, hmax⟩ := hsec p le_rfl hbp
    have hnep : n = p := Nat.le_antisymm hnp (hmax p le_rfl hbp)
    rw [hnep] at hrun
    exact hrun

/-- C3: in the gte direction the search masks bits `[p, 255]` of the
word; if some bit in `[p, 255]` is set the result is the most significant
such bit (the set bit closest to index 255) with `initialized = true`;
otherwise the result is `(255, false)`. -/
theorem nextInitializedBit_gte_spec (w p : Nat) (hw : w < 2 ^ 256)
    (hp : p ≤ 255) :
    ((∀ i, p ≤ i → i ≤ 255 → w.testBit i = false) →
      nextInitializedBit w p false = ⟨255, false⟩)
  ∧ (∀ i, p ≤ i → i ≤ 255 → w.testBit i = true →
      ∃ n : Nat, nextInitializedBit w p false = ⟨(n : Int), true⟩ ∧
        p ≤ n ∧ n ≤ 255 ∧ w.testBit n = true ∧
        ∀ j, p ≤ j → j ≤ 255 → w.testBit j = true → j ≤ n) := by
  constructor
  · intro h
    have h0 : w &&& (((1 <<< p) - 1) ^^^ ((1 <<< 256) - 1)) = 0 := by
      apply Nat.eq_of_testBit_eq
      intro i
      rw [Nat.testBit_and, gteMask_testBit p i hp, Nat.zero_testBit]
      by_cases h1 : p ≤ i
      · by_cases h2 : i < 256
        · simp [h i h1 (by omega : i ≤ 255)]
        · simp [h2]
      · simp [h1]
    rw [nextInitializedBit_gte_eq, if_pos h0]
  · intro i hpi hi255 hbi
    have hne : w &&& (((1 <<< p) - 1) ^^^ ((1 <<< 256) - 1)) ≠ 0 := by
      intro h0
      have hb : (w &&& (((1 <<< p) - 1) ^^^ ((1 <<< 256) - 1))).testBit i
          = false := by rw [h0]; simp
      rw [Nat.testBit_and, gteMask_testBit p i hp, hbi] at hb
      simp [hpi] at hb
      omega
    obtain ⟨⟨hw1, hm1⟩, hmax⟩ := log2_land_spec w _ hne
    rw [gteMask_testBit p _ hp, Bool.and_eq_true] at hm1
    refine ⟨Nat.log2 (w &&& (((1 <<< p) - 1) ^^^ ((1 <<< 256) - 1))), ?_,
      of_decide_eq_true hm1.1, by have := of_decide_eq_true hm1.2; omega,
      hw1, ?_⟩
    · rw [nextInitializedBit_gte_eq, if_neg hne,
        mostSignificantBit_eq_log2 _ hne]
    · intro j hpj hj255 hwj
      refine hmax j hwj ?_
      rw [gteMask_testBit p j hp]
      simp [hpj]
      omega

/-- C10: for every 256-bit word and bit position in `[0, 255]`, the bit
search returns a `next` value inside `[0, 255]`; `mostSignificantBit` on
a zero value would yield `-1`, but it is only invoked on a value checked
to be nonzero. -/
theorem nextInitializedBit_total (w p : Nat) (lte : Bool)
    (hw : w < 2 ^ 256) (hp : p ≤ 255) :
    (0 ≤ (nextInitializedBit w p lte).next
      ∧ (nextInitializedBit w p lte).next ≤ 255)
  ∧ mostSignificantBit 0 = -1 := by
  refine ⟨?_, mostSignificantBit_zero⟩
  cases lte
  · rw [nextInitializedBit_gte_eq]
    by_cases h0 : w &&& (((1 <<< p) - 1) ^^^ ((1 <<< 256) - 1)) = 0
    · rw [if_pos h0]
      exact ⟨by decide, by decide⟩
    · rw [if_neg h0]
      have hle : w &&& (((1 <<< p) - 1) ^^^ ((1 <<< 256) - 1)) ≤ w :=
        Nat.and_le_left
      have hlog : Nat.log2 (w &&& (((1 <<< p) - 1) ^^^ ((1 <<< 256) - 1)))
          < 256 := (Nat.log2_lt h0).mpr (lt_of_le_of_lt hle hw)
      rw [mostSignificantBit_eq_log2 _ h0]
      constructor
      · show (0 : Int) ≤ (Nat.log2 _ : Int)
        exact Int.natCast_nonneg _
      · show (Nat.log2 (w &&& (((1 <<< p) - 1) ^^^ ((1 <<< 256) - 1))) : Int)
          ≤ 255
        omega
  · rw [nextInitializedBit_lte_eq]
    by_cases h0 : w &&& ((1 <<< p) - 1 + (1 <<< p)) = 0
    · rw [if_pos h0]
      exact ⟨by decide, by decide⟩
    · rw [if_neg h0]
      have hle : w &&& ((1 <<< p) - 1 + (1 <<< p))
          ≤ (1 <<< p) - 1 + (1 <<< p) := Nat.and_le_right
      have hmlt : ((1 <<< p) - 1 + (1 <<< p) : Nat) < 2 ^ 256 := by
        have h : ((1 <<< p) - 1 + (1 <<< p) : Nat) = 2 ^ (p + 1) - 1 := by
          have hpp : (0 : Nat) < 2 ^ p := pow_pos (by norm_num) p
          rw [Nat.one_shiftLeft, Nat.pow_succ]
          omega
        have hppow : (2 : Nat) ^ (p + 1) ≤ 2 ^ 256 :=
          Nat.pow_le_pow_right (by norm_num) (by omega)
        omega
      have hlog : Nat.log2 (w &&& ((1 <<< p) - 1 + (1 <<< p))) < 256 :=
        (Nat.log2_lt h0).mpr (lt_of_le_of_lt hle hmlt)
      rw [mostSignificantBit_eq_log2 _ h0]
      constructor
      · show (0 : Int) ≤ (Nat.log2 _ : Int)
        exact Int.natCast_nonneg _
      · show (Nat.log2 (w &&& ((1 <<< p) - 1 + (1 <<< p))) : Int) ≤ 255
        omega

/-- Witness for C4 at `w = 1032 = 2 ^ 10 + 2 ^ 3`, `p = 7`. -/
theorem nextInitializedBit_lte_spec_witness :
    (1032 : Nat) < 2 ^ 256 ∧ (7 : Nat) ≤ 255 ∧
    (((∀ i, i ≤ 7 → Nat.testBit 1032 i = false) →
        nextInitializedBit 1032 7 true = ⟨0, false⟩)
    ∧ (∀ i, i ≤ 7 → Nat.testBit 1032 i = true →
        ∃ n : Nat, nextInitializedBit 1032 7 true = ⟨(n : Int), true⟩ ∧
          n ≤ 7 ∧ Nat.testBit 1032 n = true ∧
          ∀ j, j ≤ 7 → Nat.testBit 1032 j = true → j ≤ n)
    ∧ (Nat.testBit 1032 7 = true →
        nextInitializedBit 1032 7 true = ⟨(7 : Int), true⟩)) :=
  ⟨by norm_num, by norm_num,
    nextInitializedBit_lte_spec 1032 7 (by norm_num) (by norm_num)⟩

/-- Witness for C3 at `w = 1032 = 2 ^ 10 + 2 ^ 3`, `p = 4`. -/
theorem nextInitializedBit_gte_spec_witness :
    (1032 : Nat) < 2 ^ 256 ∧ (4 : Nat) ≤ 255 ∧
    (((∀ i, 4 ≤ i → i ≤ 255 → Nat.testBit 1032 i = false) →
        nextInitializedBit 1032 4 false = ⟨255, false⟩)
    ∧ (∀ i, 4 ≤ i → i ≤ 255 → Nat.testBit 1032 i = true →
        ∃ n : Nat, nextInitializedBit 1032 4 false = ⟨(n : Int), true⟩ ∧
          4 ≤ n ∧ n ≤ 255 ∧ Nat.testBit 1032 n = true ∧
          ∀ j, 4 ≤ j → j ≤ 255 → Nat.testBit 1032 j = true → j ≤ n)) :=
  ⟨by norm_num, by norm_num,
    nextInitializedBit_gte_spec 1032 4 (by norm_num) (by norm_num)⟩

/-- Witness for C10 at `w = 5`, `p = 0`, `lte = true`. -/
theorem nextInitializedBit_total_witness :
    (5 : Nat) < 2 ^ 256 ∧ (0 : Nat) ≤ 255 ∧
    ((0 ≤ (nextInitializedBit 5 0 true).next
        ∧ (nextInitializedBit 5 0 true).next ≤ 255)
      ∧ mostSignificantBit 0 = -1) :=
  ⟨by norm_num, by norm_num,
    nextInitializedBit_total 5 0 true (by norm_num) (by norm_num)⟩

/-- Counterexample for C5: at `tick = 2550`, `spacing = 10`, `lte = false`
and no bitmap records, the source increments `compressed` from 255 to 256
before deriving the word/bit position, landing in word 1 and returning
tick `5110`; searching at the position of `compressed = 255` itself, as
the claim states, would stay in word 0 and return tick `2550`. -/
theorem c5_counterexample_gte_increments_compressed :
    nextInitializedTickInWord (fun _ => none) 2550 false 10 = (5110, false)
  ∧ claimNextInitializedTickInWord (fun _ => none) 2550 false 10
      = (2550, false)
  ∧ ((5110 : Int), false) ≠ ((2550 : Int), false) := by
  refine ⟨by decide, by decide, by decide⟩

/-- C5 (amended): `nextInitializedTickInWord` composes compression,
word/bit positioning, bit search and decompression, but in the gte
direction it first increments the compressed tick by one, so it searches
from the slot above the starting compressed tick; equivalently, in the
lte direction it agrees with the claim's composition at `tick`, and in
the gte direction with the claim's composition at `tick + spacing`. -/
theorem nextInitializedTickInWord_eq_claim_composition
    (words : Int → Option (Fin 4 → Nat)) (tick spacing : Int)
    (hs : 0 < spacing) :
    nextInitializedTickInWord words tick true spacing
      = claimNextInitializedTickInWord words tick true spacing
  ∧ nextInitializedTickInWord words tick false spacing
      = claimNextInitializedTickInWord words (tick + spacing) false spacing := by
  have hfd : Int.fdiv (tick + spacing) spacing = Int.fdiv tick spacing + 1 := by
    rw [Int.fdiv_eq_ediv _ (le_of_lt hs), Int.fdiv_eq_ediv _ (le_of_lt hs)]
    have h := Int.add_mul_ediv_right tick 1 (ne_of_gt hs)
    simpa using h
  constructor
  · simp [nextInitializedTickInWord, claimNextInitializedTickInWord]
  · simp [nextInitializedTickInWord, claimNextInitializedTickInWord, hfd]

/-- Witness for the amended C5 at `words = ∅`, `tick = 7`, `spacing = 2`. -/
theorem nextInitializedTickInWord_eq_claim_composition_witness :
    (0 : Int) < 2 ∧
    (nextInitializedTickInWord (fun _ => none) 7 true 2
        = claimNextInitializedTickInWord (fun _ => none) 7 true 2
      ∧ nextInitializedTickInWord (fun _ => none) 7 false 2
        = claimNextInitializedTickInWord (fun _ => none) (7 + 2) false 2) :=
  ⟨by norm_num,
    nextInitializedTickInWord_eq_claim_composition (fun _ => none) 7 2
      (by norm_num)⟩

/-- C6: when the addressed bitmap word record does not exist, the search
does not fail: it returns exactly what it would return for an all-zero
word, namely `initialized = false` with bit index 0 (lte) or 255 (gte),
decompressed to `(wordPos * 256 + thatBit) * spacing`. -/
theorem nextInitializedTickInWord_missing_word
    (words : Int → Option (Fin 4 → Nat)) (tick : Int) (lte : Bool)
    (spacing : Int)
    (h : words (tickPosition
        (Int.fdiv tick spacing + if lte then 0 else 1)).wordPos = none) :
    nextInitializedTickInWord words tick lte spacing
      = nextInitializedTickInWord (fun _ => some (fun _ => 0)) tick lte spacing
  ∧ nextInitializedTickInWord words tick lte spacing
      = (((tickPosition (Int.fdiv tick spacing
            + if lte then 0 else 1)).wordPos * 256
          + (if lte then 0 else 255)) * spacing, false) := by
  have hzero : generateBitmapWord (fun _ => 0) = 0 := by decide
  have hz : ∀ p l, nextInitializedBit 0 p l
      = ⟨if l then 0 else 255, false⟩ := by
    intro p l
    cases l
    · rw [nextInitializedBit_gte_eq]
      simp
    · rw [nextInitializedBit_lte_eq]
      simp
  constructor
  · simp [nextInitializedTickInWord, h, hzero, hz]
  · simp [nextInitializedTickInWord, h]

/-- Witness for C6 at an empty word store, `tick = 7`, `lte = true`,
`spacing = 3`. -/
theorem nextInitializedTickInWord_missing_word_witness :
    ((fun _ : Int => (none : Option (Fin 4 → Nat)))
        (tickPosition (Int.fdiv 7 3 + if true then 0 else 1)).wordPos = none)
  ∧ (nextInitializedTickInWord (fun _ => none) 7 true 3
      = nextInitializedTickInWord (fun _ => some (fun _ => 0)) 7 true 3
    ∧ nextInitializedTickInWord (fun _ => none) 7 true 3
      = (((tickPosition (Int.fdiv 7 3 + if true then 0 else 1)).wordPos * 256
          + (if true then 0 else 255)) * 3, false)) :=
  ⟨rfl, nextInitializedTickInWord_missing_word (fun _ => none) 7 true 3 rfl⟩

/-- C8: a successful growth step at index `i` creates the slot with the
sentinel timestamp 1, zero cumulatives and `initialized = false`,
increments `observation_cardinality_next` by exactly one, and leaves
`observation_cardinality`, `observation_index` and all other slots
unchanged. -/
theorem growObservation_postcondition (s s2 : ObservationBuffer) (i : Nat)
    (h : growObservation s i = Except.ok s2) :
    s2.slots i = ⟨1, 0, 0, false⟩
  ∧ s2.observationCardinalityNext = s.observationCardinalityNext + 1
  ∧ s2.observationCardinality = s.observationCardinality
  ∧ s2.observationIndex = s.observationIndex
  ∧ ∀ j, j ≠ i → s2.slots j = s.slots j := by
  unfold growObservation at h
  split at h
  · cases h
    refine ⟨by simp, rfl, rfl, rfl, ?_⟩
    intro j hj
    simp [hj]
  · cases h

/-- Witness for C8: growing `demoBuf` at index 1 yields `demoGrown`. -/
theorem growObservation_postcondition_witness :
    growObservation demoBuf 1 = Except.ok demoGrown
  ∧ (demoGrown.slots 1 = ⟨1, 0, 0, false⟩
    ∧ demoGrown.observationCardinalityNext
        = demoBuf.observationCardinalityNext + 1
    ∧ demoGrown.observationCardinality = demoBuf.observationCardinality
    ∧ demoGrown.observationIndex = demoBuf.observationIndex
    ∧ ∀ j, j ≠ 1 → demoGrown.slots j = demoBuf.slots j) :=
  ⟨rfl, growObservation_postcondition demoBuf demoGrown 1 rfl⟩

/-- After any checkpoint, the record at the resulting observation index
carries the checkpoint's timestamp. -/
theorem checkpoint_head_timestamp (s : ObservationBuffer) (now : Nat)
    (tick : Int) (liquidity : Nat) :
    ((checkpoint s now tick liquidity).slots
      (checkpoint s now tick liquidity).observationIndex).blockTimestamp
      = now := by
  unfold checkpoint
  by_cases hc : partitionOf now
      = partitionOf (s.slots s.observationIndex).blockTimestamp
  · rw [if_pos hc]
    simp
  · rw [if_neg hc]
    simp

/-- C9: if a second checkpoint carries a timestamp in the same partition
as the first, it overwrites the record at the current observation index
in place (same index, same cardinality, all other slots untouched, the
head record rewritten with the new timestamp) and never advances
`observation_index`. -/
theorem checkpoint_same_partition_no_advance (s : ObservationBuffer)
    (t1 t2 : Nat) (tk1 tk2 : Int) (l1 l2 : Nat)
    (h : partitionOf t1 = partitionOf t2) :
    (checkpoint (checkpoint s t1 tk1 l1) t2 tk2 l2).observationIndex
      = (checkpoint s t1 tk1 l1).observationIndex
  ∧ (checkpoint (checkpoint s t1 tk1 l1) t2 tk2 l2).observationCardinality
      = (checkpoint s t1 tk1 l1).observationCardinality
  ∧ (∀ j, j ≠ (checkpoint s t1 tk1 l1).observationIndex →
      (checkpoint (checkpoint s t1 tk1 l1) t2 tk2 l2).slots j
        = (checkpoint s t1 tk1 l1).slots j)
  ∧ ((checkpoint (checkpoint s t1 tk1 l1) t2 tk2 l2).slots
        (checkpoint s t1 tk1 l1).observationIndex).blockTimestamp = t2 := by
  have hts : ((checkpoint s t1 tk1 l1).slots
      (checkpoint s t1 tk1 l1).observationIndex).blockTimestamp = t1 :=
    checkpoint_head_timestamp s t1 tk1 l1
  set s1 := checkpoint s t1 tk1 l1 with hs1
  have hcond : partitionOf t2
      = partitionOf ((s1.slots s1.observationIndex).blockTimestamp) := by
    rw [hts]
    exact h.symm
  show (checkpoint s1 t2 tk2 l2).observationIndex = s1.observationIndex
    ∧ (checkpoint s1 t2 tk2 l2).observationCardinality
        = s1.observationCardinality
    ∧ (∀ j, j ≠ s1.observationIndex →
        (checkpoint s1 t2 tk2 l2).slots j = s1.slots j)
    ∧ ((checkpoint s1 t2 tk2 l2).slots s1.observationIndex).blockTimestamp
        = t2
  simp only [checkpoint]
  rw [if_pos hcond]
  refine ⟨rfl, rfl, ?_, ?_⟩
  · intro j hj
    simp [hj]
  · simp

/-- Witness for C9 at `demoBuf` with timestamps 3 and 5 (same
14-second partition). -/
theorem checkpoint_same_partition_no_advance_witness :
    partitionOf 3 = partitionOf 5
  ∧ ((checkpoint (checkpoint demoBuf 3 0 1) 5 0 1).observationIndex
      = (checkpoint demoBuf 3 0 1).observationIndex
    ∧ (checkpoint (checkpoint demoBuf 3 0 1) 5 0 1).observationCardinality
      = (checkpoint demoBuf 3 0 1).observationCardinality
    ∧ (∀ j, j ≠ (checkpoint demoBuf 3 0 1).observationIndex →
        (checkpoint (checkpoint demoBuf 3 0 1) 5 0 1).slots j
          = (checkpoint demoBuf 3 0 1).slots j)
    ∧ ((checkpoint (checkpoint demoBuf 3 0 1) 5 0 1).slots
        (checkpoint demoBuf 3 0 1).observationIndex).blockTimestamp = 5) :=
  ⟨rfl, checkpoint_same_partition_no_advance demoBuf 3 5 0 0 1 1 rfl⟩
